import Mathlib

/-!
Formal model of the guacamole-dotool automation command engine:
tokenizer (`parseScriptToWords`), command parser (`parseCommands`,
`Keystroke`), keysym translation (`translateKey`, `translateChar`,
`keysymFromCodePoint`) and the action executor (`client.ts`).

JavaScript strings are modelled as lists of characters (`Word`); a
length-1 JavaScript string is one UTF-16 code unit, so single-character
operations carry the side condition `c.toNat < 0x10000` where it matters.
JavaScript numbers are modelled by `JsNum`: `int` for exact integer
values, `nan` for NaN, and `rep` for non-integral numeric strings (kept
symbolically; no claim inspects a non-integral value).
-/

namespace GuacDotool

/-- A JavaScript string, as the list of its characters. -/
abbrev Word := List Char

/-- A JavaScript number as far as the claims need it: an exact integer,
NaN, or a non-integral numeric value kept as its source text. -/
inductive JsNum where
  | nan : JsNum
  | int (n : Int) : JsNum
  | rep (w : Word) : JsNum
  deriving DecidableEq, Repr

/-- Equality of `Except` values is decidable componentwise. -/
instance {ε α : Type} [DecidableEq ε] [DecidableEq α] : DecidableEq (Except ε α) := fun x y =>
  match x, y with
  | .ok a, .ok b =>
    if h : a = b then .isTrue (by rw [h]) else .isFalse (by simp [h])
  | .error e, .error f =>
    if h : e = f then .isTrue (by rw [h]) else .isFalse (by simp [h])
  | .ok _, .error _ => .isFalse (by simp)
  | .error _, .ok _ => .isFalse (by simp)

/-! ## Errors (errors.ts) -/

/-- Failures of the client / keyboard layer: the `GuacamoleClientError`
codes from `errors.ts`, plus `assertFailed` for `node:assert` violations
and `rangeError` for the `RangeError` thrown by `keysymFromCodePoint`. -/
inductive GErr where
  | notConnected
  | canvasNotInitialized
  | unknownKey
  | assertFailed
  | rangeError
  | badDispatch
  deriving DecidableEq, Repr

/-- `GuacamoleCommandError` codes. -/
inductive CmdErrCode where
  | unknown
  | invalidArgument
  deriving DecidableEq, Repr

/-- A `GuacamoleCommandError`: its code and the offending command name
(the human-readable message text is not modelled). -/
structure CmdErr where
  code : CmdErrCode
  command : Word
  deriving DecidableEq, Repr

/-! ## Keymaps (keymaps.ts)

Lookup tables are association lists `name → Option code`; a `none` value
models an entry explicitly set to `undefined` (skipped by the
`code != null` guards when the lookup maps are built). -/

/-- Mapping of keyboard keys to keysym codes (`Keymap` in keymaps.ts). -/
structure Keymap where
  name : Word
  allowFallback : Bool
  modifiers : List (Word × Option Nat)
  control : List (Word × Option Nat)
  printable : List (Word × Option Nat)
  combined : List (Word × Option (List Nat))

/-- `ControlKeysyms` from keymaps.ts. -/
def ControlKeysyms : List (Word × Option Nat) :=
  [("Space".toList, some 0x20),
   ("Backspace".toList, some 0xff08), ("Bsp".toList, some 0xff08),
   ("Tab".toList, some 0xff09),
   ("Enter".toList, some 0xff0d),
   ("Pause".toList, some 0xff13),
   ("ScrollLock".toList, some 0xff14), ("ScrLk".toList, some 0xff14),
   ("SysReq".toList, some 0xff15), ("SysRq".toList, some 0xff15),
   ("Escape".toList, some 0xff1b), ("Esc".toList, some 0xff1b),
   ("Home".toList, some 0xff50),
   ("Left".toList, some 0xff51),
   ("Up".toList, some 0xff52),
   ("Right".toList, some 0xff53),
   ("Down".toList, some 0xff54),
   ("PageUp".toList, some 0xff55), ("PgUp".toList, some 0xff55),
   ("PageDown".toList, some 0xff56), ("PgDown".toList, some 0xff56),
   ("PgDn".toList, some 0xff56),
   ("End".toList, some 0xff57),
   ("PrintScreen".toList, some 0xff61), ("PrtSc".toList, some 0xff61),
   ("Insert".toList, some 0xff63), ("Ins".toList, some 0xff63),
   ("Menu".toList, some 0xff67),
   ("NumLock".toList, some 0xff7f), ("NumLk".toList, some 0xff7f),
   ("F1".toList, some 0xffbe), ("F2".toList, some 0xffbf),
   ("F3".toList, some 0xffc0), ("F4".toList, some 0xffc1),
   ("F5".toList, some 0xffc2), ("F6".toList, some 0xffc3),
   ("F7".toList, some 0xffc4), ("F8".toList, some 0xffc5),
   ("F9".toList, some 0xffc6), ("F10".toList, some 0xffc7),
   ("F11".toList, some 0xffc8), ("F12".toList, some 0xffc9),
   ("F13".toList, some 0xffca), ("F14".toList, some 0xffcb),
   ("F15".toList, some 0xffcc), ("F16".toList, some 0xffcd),
   ("F17".toList, some 0xffce), ("F18".toList, some 0xffcf),
   ("F19".toList, some 0xffd0), ("F20".toList, some 0xffd1),
   ("F21".toList, some 0xffd2), ("F22".toList, some 0xffd3),
   ("F23".toList, some 0xffd4), ("F24".toList, some 0xffd5),
   ("Delete".toList, some 0xffff), ("Del".toList, some 0xffff)]

/-- `ModifierKeysyms` from keymaps.ts. -/
def ModifierKeysyms : List (Word × Option Nat) :=
  [("LShift".toList, some 0xffe1), ("Shift".toList, some 0xffe1),
   ("RShift".toList, some 0xffe2),
   ("LCtrl".toList, some 0xffe3), ("Ctrl".toList, some 0xffe3),
   ("RCtrl".toList, some 0xffe4),
   ("CapsLock".toList, some 0xffe5), ("CapLk".toList, some 0xffe5),
   ("LAlt".toList, some 0xffe9), ("Alt".toList, some 0xffe9),
   ("RAlt".toList, some 0xffea),
   ("LSuper".toList, some 0xffeb), ("Super".toList, some 0xffeb),
   ("Cmd".toList, some 0xffeb), ("Win".toList, some 0xffeb),
   ("RSuper".toList, some 0xffec)]

/-- The characters of `PrintableKeysyms` (keymaps.ts), in source order. -/
def printableChars : List Char :=
  ['`', '1', '2', '3', '4', '5', '6', '7', '8', '9', '0', '-', '=',
   'q', 'w', 'e', 'r', 't', 'y', 'u', 'i', 'o', 'p', '[', ']',
   'a', 's', 'd', 'f', 'g', 'h', 'j', 'k', 'l', ';', '\'', '\\',
   'z', 'x', 'c', 'v', 'b', 'n', 'm', ',', '.', '/',
   ' ']

/-- `PrintableKeysyms`: printable characters mapped to their code point
(`codePointsMap` in keymaps.ts). -/
def PrintableKeysyms : List (Word × Option Nat) :=
  printableChars.map (fun c => ([c], some c.toNat))

/-- The shifted/base character pairs of `PrintableShiftedKeysyms`. -/
def shiftedPairs : List (Char × Char) :=
  [('~', '`'), ('!', '1'), ('@', '2'), ('#', '3'), ('$', '4'),
   ('%', '5'), ('^', '6'), ('&', '7'), ('*', '8'), ('(', '9'),
   (')', '0'), ('_', '-'), ('+', '='),
   ('Q', 'q'), ('W', 'w'), ('E', 'e'), ('R', 'r'), ('T', 't'),
   ('Y', 'y'), ('U', 'u'), ('I', 'i'), ('O', 'o'), ('P', 'p'),
   ('{', '['), ('}', ']'),
   ('A', 'a'), ('S', 's'), ('D', 'd'), ('F', 'f'), ('G', 'g'),
   ('H', 'h'), ('J', 'j'), ('K', 'k'), ('L', 'l'), (':', ';'),
   ('"', '\''), ('|', '\\'),
   ('Z', 'z'), ('X', 'x'), ('C', 'c'), ('V', 'v'), ('B', 'b'),
   ('N', 'n'), ('M', 'm'), ('<', ','), ('>', '.'), ('?', '/')]

/-- `PrintableShiftedKeysyms`: each shifted character maps to
`[Shift keysym, code point of the base character]` (`shifted` in
keymaps.ts; the base characters are all in `PrintableKeysyms`, whose
values are their code points). -/
def PrintableShiftedKeysyms : List (Word × Option (List Nat)) :=
  shiftedPairs.map (fun p => ([p.1], some [0xffe1, p.2.toNat]))

/-- The default US keymap (`Keymaps.US`). -/
def usKeymap : Keymap :=
  { name := "us".toList
    allowFallback := false
    combined := PrintableShiftedKeysyms
    control := ControlKeysyms
    modifiers := ModifierKeysyms
    printable := PrintableKeysyms }

/-- `Keymaps.DIRECT`: only control and modifier keys, fallback allowed. -/
def directKeymap : Keymap :=
  { usKeymap with
    name := "direct".toList
    allowFallback := true
    combined := []
    printable := [] }

/-! ## Keyboard mapper (keyboard.ts) -/

/-- JavaScript `toLowerCase` on a string (ASCII-relevant part). -/
def toLowerW (w : Word) : Word := w.map Char.toLower

/-- `Map.set` on an association list: replaces the value of an existing
key in place, otherwise appends. -/
def assocSet (m : List (Word × Nat)) (k : Word) (v : Nat) : List (Word × Nat) :=
  if m.any (fun p => p.1 = k) then
    m.map (fun p => if p.1 = k then (k, v) else p)
  else
    m ++ [(k, v)]

/-- The `keysMap` of `KeyboardMapper`: the merged
`control ++ modifiers ++ printable` entries with non-null codes, keyed by
the lower-cased name, later entries overwriting earlier ones. -/
def keysMapList (km : Keymap) : List (Word × Nat) :=
  (km.control ++ km.modifiers ++ km.printable).foldl
    (fun m p =>
      match p.2 with
      | none => m
      | some c => assocSet m (toLowerW p.1) c)
    []

/-- `keysMap.get key` (the key is expected already lower-cased). -/
def keysMapGet (km : Keymap) (k : Word) : Option Nat :=
  ((keysMapList km).find? (fun p => p.1 = k)).map (fun p => p.2)

/-- Last `Map.set` wins: the value of the last entry for `k` whose value
is non-null, as set by iterating the table in order. -/
def lookupLastSome {α : Type} (l : List (Word × Option α)) (k : Word) : Option α :=
  ((l.filter (fun p => p.1 = k && p.2.isSome)).getLast?).bind (fun p => p.2)

/-- The `charsMap` of `KeyboardMapper`, as a lookup function: printable
entries are set first, then combined entries (so combined overwrites
printable on a common key), then the fixed `'\n'`/`' '`/`'\t'` overrides
(which use `keysMap.get` of `enter`/`space`/`tab`; the source asserts
their presence with `!`, modelled by `getD 0`). Only single-character
table names can ever match a single character. -/
def charsMapGet (km : Keymap) (c : Char) : Option (List Nat) :=
  if c = '\n' then some [(keysMapGet km ("enter".toList)).getD 0]
  else if c = ' ' then some [(keysMapGet km ("space".toList)).getD 0]
  else if c = '\t' then some [(keysMapGet km ("tab".toList)).getD 0]
  else
    match lookupLastSome km.combined [c] with
    | some codes => some codes
    | none => (lookupLastSome km.printable [c]).map (fun code => [code])

/-- `keysymFromCodePoint` (keyboard.ts): code-point to keysym per the X11
keysym encoding; out-of-range values raise a `RangeError`. -/
def keysymFromCodePoint (codepoint : Nat) : Except GErr Nat :=
  if codepoint ≤ 0x1f ∨ (0x7f ≤ codepoint ∧ codepoint ≤ 0x9f) then
    .ok (0xff00 ||| codepoint)
  else if codepoint ≤ 0x00ff then
    .ok codepoint
  else if codepoint ≥ 0x0100 ∧ codepoint ≤ 0x10ffff then
    .ok (0x01000000 ||| codepoint)
  else
    .error .rangeError

/-- JavaScript `parseInt(s, 16)`: skip leading whitespace, optional sign,
optional `0x`/`0X`, then the longest run of hex digits; no digits means
NaN. -/
def parseIntHex (w : Word) : JsNum :=
  let t := w.dropWhile (fun c => c = ' ' ∨ c = '\t' ∨ c = '\n' ∨ c = '\r')
  let sign : Int := if t.head? = some '-' then -1 else 1
  let t1 := if t.head? = some '-' ∨ t.head? = some '+' then t.tail else t
  let t2 := if t1.take 2 = ['0', 'x'] ∨ t1.take 2 = ['0', 'X'] then t1.drop 2 else t1
  let digits := t2.takeWhile (fun c => c.isDigit ∨ ('a' ≤ c ∧ c ≤ 'f') ∨ ('A' ≤ c ∧ c ≤ 'F'))
  if digits.isEmpty then .nan
  else .int (sign * Int.ofNat (digits.foldl (fun acc c => 16 * acc +
    (if c.isDigit then c.toNat - '0'.toNat
     else if 'a' ≤ c ∧ c ≤ 'f' then c.toNat - 'a'.toNat + 10
     else c.toNat - 'A'.toNat + 10)) 0))

/-- `KeyboardMapper.translateKey` (keyboard.ts): a `0x`-prefixed key is
hex-parsed with no table lookup; otherwise the lower-cased key is looked
up in `keysMap`, a falsy result (missing, or code 0) raising
`UNKNOWN_KEY`. -/
def translateKeyStr (km : Keymap) (key : Word) : Except GErr JsNum :=
  if key.take 2 = ['0', 'x'] then
    .ok (parseIntHex (key.drop 2))
  else
    match keysMapGet km (toLowerW key) with
    | some k => if k = 0 then .error .unknownKey else .ok (.int k)
    | none => .error .unknownKey

/-- `KeyboardMapper.translateChar` (keyboard.ts). The source asserts
`char.length === 1` on a JavaScript (UTF-16) string, so a code point
beyond the Basic Multilingual Plane is a contract violation; then the
character is looked up in `charsMap` and, failing that, fallback encoding
applies when the keymap allows it. -/
def translateChar (km : Keymap) (c : Char) : Except GErr (List Nat) :=
  if 0x10000 ≤ c.toNat then .error .assertFailed
  else
    match charsMapGet km c with
    | some keysyms => .ok keysyms
    | none =>
      if km.allowFallback then
        (keysymFromCodePoint c.toNat).map (fun k => [k])
      else
        .error .unknownKey

/-! ## Action executor (client.ts)

Operations are modelled as functions `CState → OpRes`, where an `OpRes`
carries the outcome (next state or error) together with the list of
transport events emitted before returning or throwing. Every method of
the client object is wrapped by `CheckConnectedDecorator`
(`decorateMethods`), modelled by `checkConnected` at the head of each
operation. -/

/-- `Guacamole.Mouse.State`: cursor position and one boolean per button
property. A fresh state is all zeros / false. -/
structure MouseState where
  x : Int := 0
  y : Int := 0
  left : Bool := false
  middle : Bool := false
  right : Bool := false
  up : Bool := false
  down : Bool := false
  deriving DecidableEq, Repr

/-- The events an operation can emit: `client.sendKeyEvent`,
`client.sendMouseState` (always the full pointer record), a cooperative
`delay(ms)` suspension, `pause`'s `delay(seconds*1000)` suspension,
`FS.writeFile`, and `client.disconnect()`. -/
inductive Event where
  | keyEvent (pressed : Bool) (keysym : JsNum)
  | sendMouse (state : MouseState)
  | delay (ms : Nat)
  | sleepSeconds (seconds : JsNum)
  | fileWrite (filename : Word)
  | disconnect
  deriving DecidableEq, Repr

/-- Client options after merging with `defaultOptions`, plus the keymap
the `KeyboardMapper` was built from. -/
structure Config where
  keymap : Keymap
  toggleDelay : Nat := 12
  doubleClickDelay : Nat := 100
  delayBetweenKeys : Nat := 50

/-- The executor-visible state: the tunnel's connection status, the one
authoritative `mouseState` record, and the flattened display's
`(width, height)` (for `captureScreen`). -/
structure CState where
  connected : Bool
  mouse : MouseState := {}
  display : Nat × Nat := (0, 0)
  deriving DecidableEq, Repr

/-- Result of one operation: the emitted events and either the successor
state or the thrown error (events emitted before a throw remain). -/
abbrev OpRes := Except GErr CState × List Event

/-- Sequencing: run `k` on the successor state, concatenating events; an
error aborts (already-emitted events are kept). -/
def opSeq (r : OpRes) (k : CState → OpRes) : OpRes :=
  match r with
  | (.ok st, evs) => let r2 := k st; (r2.1, evs ++ r2.2)
  | (.error e, evs) => (.error e, evs)

/-- Emit events and continue in the same state. -/
def emit (evs : List Event) (st : CState) : OpRes := (.ok st, evs)

/-- `CheckConnectedDecorator`: every client method first checks
`tunnel.isConnected()` and throws `NOT_CONNECTED` otherwise. -/
def checkConnected (st : CState) (body : CState → OpRes) : OpRes :=
  if st.connected then body st else (.error .notConnected, [])

/-- The five button properties of `Guacamole.Mouse.State`. -/
inductive MProp where
  | left
  | middle
  | right
  | up
  | down
  deriving DecidableEq, Repr

/-- `mouseButtonToStateProp` (client.ts). -/
def mouseButtonToStateProp : List (Word × MProp) :=
  [("Left".toList, .left), ("Middle".toList, .middle),
   ("Right".toList, .right), ("ScrollUp".toList, .up),
   ("ScrollDown".toList, .down)]

/-- `mouseButtonProps = Object.values(mouseButtonToStateProp)`, as the
map from a property name to the property. -/
def mousePropOfName : List (Word × MProp) :=
  [("left".toList, .left), ("middle".toList, .middle),
   ("right".toList, .right), ("up".toList, .up), ("down".toList, .down)]

/-- Write one button property of the pointer state. -/
def setProp (ms : MouseState) (p : MProp) (b : Bool) : MouseState :=
  match p with
  | .left => { ms with left := b }
  | .middle => { ms with middle := b }
  | .right => { ms with right := b }
  | .up => { ms with up := b }
  | .down => { ms with down := b }

/-- `setMouseButtonState` (client.ts): the button must be a `MouseButton`
enum member or directly a state property name (the `assert`), then
`mouseState[mouseButtonToStateProp[button] ?? button] = down`. -/
def setMouseButtonState (b : Word) (dn : Bool) (ms : MouseState) : Except GErr MouseState :=
  if mouseButtonToStateProp.any (fun p => p.1 = b) ∨
      mousePropOfName.any (fun p => p.1 = b) then
    match (mouseButtonToStateProp.find? (fun p => p.1 = b)).map (fun p => p.2) with
    | some p => .ok (setProp ms p dn)
    | none =>
      match (mousePropOfName.find? (fun p => p.1 = b)).map (fun p => p.2) with
      | some p => .ok (setProp ms p dn)
      | none => .error .assertFailed
  else
    .error .assertFailed

/-- A key argument of `keysDown`/`keysUp`: a symbolic name or a raw
numeric code (which `translateKey` passes through verbatim). -/
inductive KeyRef where
  | name (w : Word)
  | code (n : Int)
  deriving DecidableEq, Repr

/-- The client's local `translateKey`: numbers verbatim, strings through
the keyboard mapper. -/
def translateKeyRef (km : Keymap) : KeyRef → Except GErr JsNum
  | .code n => .ok (.int n)
  | .name w => translateKeyStr km w

/-- The loop bodies of `keysDown`/`keysUp`: one `sendKeyEvent` per key,
in order; a translation failure aborts the loop (keeping the events
already sent). -/
def sendKeys (km : Keymap) (pressed : Bool) : List KeyRef → Option GErr × List Event
  | [] => (none, [])
  | k :: ks =>
    match translateKeyRef km k with
    | .error e => (some e, [])
    | .ok c =>
      let r := sendKeys km pressed ks
      (r.1, .keyEvent pressed c :: r.2)

/-- `keysDown`. -/
def keysDownOp (cfg : Config) (keys : List KeyRef) (st : CState) : OpRes :=
  checkConnected st fun st =>
    match sendKeys cfg.keymap true keys with
    | (none, evs) => (.ok st, evs)
    | (some e, evs) => (.error e, evs)

/-- `keysUp`. -/
def keysUpOp (cfg : Config) (keys : List KeyRef) (st : CState) : OpRes :=
  checkConnected st fun st =>
    match sendKeys cfg.keymap false keys with
    | (none, evs) => (.ok st, evs)
    | (some e, evs) => (.error e, evs)

/-- `keysPress`: keysDown, a toggle-delay suspension (only when the
delay is positive), keysUp in reverse order. -/
def keysPressOp (cfg : Config) (keys : List KeyRef) (st : CState) : OpRes :=
  checkConnected st fun st =>
    opSeq (keysDownOp cfg keys st) fun st =>
    opSeq (emit (if cfg.toggleDelay > 0 then [.delay cfg.toggleDelay] else []) st) fun st =>
    keysUpOp cfg keys.reverse st

/-- The per-character loop of `type`: translate, keysDown, toggle delay,
keysUp reversed, and a between-keys delay except after the last
character. -/
def typeLoop (cfg : Config) : List Char → CState → OpRes
  | [], st => (.ok st, [])
  | c :: rest, st =>
    match translateChar cfg.keymap c with
    | .error e => (.error e, [])
    | .ok keysyms =>
      let refs := keysyms.map (fun k => KeyRef.code (Int.ofNat k))
      opSeq (keysDownOp cfg refs st) fun st =>
      opSeq (emit [.delay cfg.toggleDelay] st) fun st =>
      opSeq (keysUpOp cfg refs.reverse st) fun st =>
      opSeq (emit (if rest.isEmpty then [] else [.delay cfg.delayBetweenKeys]) st) fun st =>
      typeLoop cfg rest st

/-- `type` (the JavaScript source iterates UTF-16 code units; the claims
only involve Basic-Multilingual-Plane text, where the two coincide). -/
def typeOp (cfg : Config) (text : List Char) (st : CState) : OpRes :=
  checkConnected st fun st => typeLoop cfg text st

/-- `mouseButtonDown`: set the button property, transmit the full
pointer state. -/
def mouseButtonDownOp (b : Word) (st : CState) : OpRes :=
  checkConnected st fun st =>
    match setMouseButtonState b true st.mouse with
    | .error e => (.error e, [])
    | .ok ms => (.ok { st with mouse := ms }, [.sendMouse ms])

/-- `mouseButtonUp`. -/
def mouseButtonUpOp (b : Word) (st : CState) : OpRes :=
  checkConnected st fun st =>
    match setMouseButtonState b false st.mouse with
    | .error e => (.error e, [])
    | .ok ms => (.ok { st with mouse := ms }, [.sendMouse ms])

/-- The `while (count-- > 0)` loop of `mouseClick`: buttonDown, toggle
delay, buttonUp, and a double-click delay between repeats (not after the
last); the inner calls go through the decorated methods. -/
def clickLoop (cfg : Config) (b : Word) : Nat → CState → OpRes
  | 0, st => (.ok st, [])
  | n + 1, st =>
    opSeq (mouseButtonDownOp b st) fun st =>
    opSeq (emit [.delay cfg.toggleDelay] st) fun st =>
    opSeq (mouseButtonUpOp b st) fun st =>
    opSeq (emit (if n > 0 then [.delay cfg.doubleClickDelay] else []) st) fun st =>
    clickLoop cfg b n st

/-- `mouseClick(button, count = 1, modifiers = [])`. A non-positive
count runs the loop zero times (`Int.toNat`). -/
def mouseClickOp (cfg : Config) (b : Word) (count : Int) (modifiers : List Word)
    (st : CState) : OpRes :=
  checkConnected st fun st =>
    opSeq (keysDownOp cfg (modifiers.map KeyRef.name) st) fun st =>
    opSeq (clickLoop cfg b count.toNat st) fun st =>
    keysUpOp cfg (modifiers.map KeyRef.name) st

/-- `mouseDoubleClick(button)`: `self.mouseClick(button, 2)`. -/
def mouseDoubleClickOp (cfg : Config) (b : Word) (st : CState) : OpRes :=
  checkConnected st fun st => mouseClickOp cfg b 2 [] st

/-- The `while (count-- > 0)` loop of `scroll`: like `clickLoop` but the
inter-repeat gap is the toggle delay. -/
def scrollLoop (cfg : Config) (b : Word) : Nat → CState → OpRes
  | 0, st => (.ok st, [])
  | n + 1, st =>
    opSeq (mouseButtonDownOp b st) fun st =>
    opSeq (emit [.delay cfg.toggleDelay] st) fun st =>
    opSeq (mouseButtonUpOp b st) fun st =>
    opSeq (emit (if n > 0 then [.delay cfg.toggleDelay] else []) st) fun st =>
    scrollLoop cfg b n st

/-- `scroll(lines)`: ScrollUp if `lines > 0` else ScrollDown, repeated
`Math.abs(lines)` times. -/
def scrollOp (cfg : Config) (lines : Int) (st : CState) : OpRes :=
  checkConnected st fun st =>
    scrollLoop cfg
      (if lines > 0 then "ScrollUp".toList else "ScrollDown".toList)
      lines.natAbs st

/-- `mouseMove(x, y)`: negative coordinates fail the `assert` before any
mutation; otherwise update the cursor and transmit the full state. -/
def mouseMoveOp (x y : Int) (st : CState) : OpRes :=
  checkConnected st fun st =>
    if x < 0 ∨ y < 0 then (.error .assertFailed, [])
    else
      let ms := { st.mouse with x := x, y := y }
      (.ok { st with mouse := ms }, [.sendMouse ms])

/-- `captureScreen`: fails while the flattened canvas has a zero
dimension; the returned PNG buffer is not modelled. -/
def captureScreenOp (st : CState) : OpRes :=
  checkConnected st fun st =>
    if st.display.1 = 0 ∨ st.display.2 = 0 then (.error .canvasNotInitialized, [])
    else (.ok st, [])

/-- `captureScreenToFile`: capture (through the decorated method), then
write the file. -/
def captureScreenToFileOp (filename : Word) (st : CState) : OpRes :=
  checkConnected st fun st =>
    opSeq (captureScreenOp st) fun st =>
    (.ok st, [.fileWrite filename])

/-- `pause(seconds)`: suspend for `seconds * 1000` ms, no transport
interaction. -/
def pauseOp (seconds : JsNum) (st : CState) : OpRes :=
  checkConnected st fun st => (.ok st, [.sleepSeconds seconds])

/-- `disconnect()`: tear down the tunnel. -/
def disconnectOp (st : CState) : OpRes :=
  checkConnected st fun st => (.ok { st with connected := false }, [.disconnect])

/-- One invocation of a client method with its arguments (the `Client`
interface of client.ts). -/
inductive ClientOp where
  | keysPress (keys : List KeyRef)
  | keysDown (keys : List KeyRef)
  | keysUp (keys : List KeyRef)
  | type (text : List Char)
  | mouseClick (button : Word) (count : Int) (modifiers : List Word)
  | mouseDoubleClick (button : Word)
  | mouseButtonDown (button : Word)
  | mouseButtonUp (button : Word)
  | scroll (lines : Int)
  | mouseMove (x y : Int)
  | captureScreen
  | captureScreenToFile (filename : Word)
  | pause (seconds : JsNum)
  | disconnect
  deriving DecidableEq, Repr

/-- Dispatch a client method invocation. -/
def runOp (cfg : Config) : ClientOp → CState → OpRes
  | .keysPress keys => keysPressOp cfg keys
  | .keysDown keys => keysDownOp cfg keys
  | .keysUp keys => keysUpOp cfg keys
  | .type text => typeOp cfg text
  | .mouseClick b count modifiers => mouseClickOp cfg b count modifiers
  | .mouseDoubleClick b => mouseDoubleClickOp cfg b
  | .mouseButtonDown b => mouseButtonDownOp b
  | .mouseButtonUp b => mouseButtonUpOp b
  | .scroll lines => scrollOp cfg lines
  | .mouseMove x y => mouseMoveOp x y
  | .captureScreen => captureScreenOp
  | .captureScreenToFile f => captureScreenToFileOp f
  | .pause seconds => pauseOp seconds
  | .disconnect => disconnectOp

/-! ## Tokenizer (`parseScriptToWords`, commands.ts)

The source drives a single regex
`/^#[^\n]*\n|[^\\"\s]+|\s+(?:#[^\n]*)?|"|\\./gs` over the input and
dispatches on each match. `scanAux` reproduces the match/dispatch loop:
at each position the first alternative that matches is taken (their
leading character classes are disjoint except for the anchored comment,
which is tried first), and a position where nothing matches — only a
lone backslash at the very end of input — ends the scan. The fuel
argument only bounds the recursion; every step consumes at least one
character, so `input.length + 1` is always sufficient. -/

/-- JavaScript `\s` (and the `trimStart` whitespace set). -/
def jsWhitespace (c : Char) : Bool :=
  c = ' ' || c = '\t' || c = '\n' || c = '\r' ||
  c = '\u000B' || c = '\u000C' || c = '\u00A0' || c = '\u1680' ||
  (0x2000 ≤ c.toNat && c.toNat ≤ 0x200A) ||
  c = '\u2028' || c = '\u2029' || c = '\u202F' || c = '\u205F' ||
  c = '\u3000' || c = '\uFEFF'

/-- A character matched by the word alternative `[^\\"\s]+`. -/
def wordChar (c : Char) : Bool :=
  !(c = '\\' || c = '"' || jsWhitespace c)

/-- Result of the tokenizer: the word list (seeded with one empty word)
and whether the input ended inside a double-quoted region. -/
structure TokResult where
  words : List Word
  unclosed : Bool
  deriving DecidableEq, Repr

/-- The regex match/dispatch loop of `parseScriptToWords`. `cur` is the
word currently being built (`words[words.length - 1]`), `accRev` the
earlier words in reverse; `atStart` is true only at input position 0
(the `^` anchor). -/
def scanAux : Nat → List Char → Bool → Bool → Word → List Word → TokResult
  | _, [], _, quoted, cur, accRev => ⟨(cur :: accRev).reverse, quoted⟩
  | 0, _, _, quoted, cur, accRev => ⟨(cur :: accRev).reverse, quoted⟩
  | fuel + 1, c :: rest, atStart, quoted, cur, accRev =>
    if atStart && c = '#' && !(rest.dropWhile (fun x => x ≠ '\n')).isEmpty then
      -- `^#[^\n]*\n`: an anchored comment through its newline
      let body := rest.takeWhile (fun x => x ≠ '\n')
      let rest1 := (rest.dropWhile (fun x => x ≠ '\n')).tail
      if quoted then scanAux fuel rest1 false quoted (cur ++ '#' :: body ++ ['\n']) accRev
      else scanAux fuel rest1 false quoted cur accRev
    else if c = '\\' then
      match rest with
      | [] => ⟨(cur :: accRev).reverse, quoted⟩
      | e :: rest1 => scanAux fuel rest1 false quoted (cur ++ [e]) accRev
    else if c = '"' then
      scanAux fuel rest false (!quoted) cur accRev
    else if jsWhitespace c then
      -- `\s+(?:#[^\n]*)?`
      let run := c :: rest.takeWhile jsWhitespace
      let rest2 := rest.dropWhile jsWhitespace
      if rest2.head? = some '#' then
        let cmt := rest2.takeWhile (fun x => x ≠ '\n')
        let rest3 := rest2.dropWhile (fun x => x ≠ '\n')
        if quoted then scanAux fuel rest3 false quoted (cur ++ run ++ cmt) accRev
        else scanAux fuel rest3 false quoted cur accRev
      else
        if quoted then scanAux fuel rest2 false quoted (cur ++ run) accRev
        else scanAux fuel rest2 false quoted [] (cur :: accRev)
    else
      -- `[^\\"\s]+`
      let tok := c :: rest.takeWhile wordChar
      let rest1 := rest.dropWhile wordChar
      if quoted then scanAux fuel rest1 false quoted (cur ++ tok) accRev
      else if c = '#' then scanAux fuel rest1 false quoted cur accRev
      else scanAux fuel rest1 false quoted (cur ++ tok) accRev

/-- `parseScriptToWords` (commands.ts). -/
def parseScriptToWords (input : List Char) : TokResult :=
  scanAux (input.length + 1) input true false [] []

/-! ## Keystroke parser and argument parsers (commands.ts) -/

/-- The separator chosen by `Keystroke`: of `+` and `-`, whichever
occurs first in the value (`indexOf` misses mapped to infinity), ties
and absence resolving to `-`. -/
def sepOf (w : Word) : Char :=
  match w.findIdx? (fun c => c = '+'), w.findIdx? (fun c => c = '-') with
  | some i, some j => if i < j then '+' else '-'
  | some _, none => '+'
  | none, _ => '-'

/-- JavaScript `String.split` with a single-character separator. -/
def splitChar (sep : Char) : List Char → List Word
  | [] => [[]]
  | c :: rest =>
    if c = sep then [] :: splitChar sep rest
    else
      match splitChar sep rest with
      | w :: ws => (c :: w) :: ws
      | [] => [[c]]

/-- The reducer of `Keystroke`: an empty last element absorbs the next
segment as `separator + segment`. -/
def keystrokeStep (sep : Char) (acc : List Word) (key : Word) : List Word :=
  if acc.getLast? = some [] then acc.dropLast ++ [sep :: key] else acc ++ [key]

/-- `Keystroke` (commands.ts): split a key combo on its separator and
merge doubled separators into literal keys. -/
def Keystroke (w : Word) : List Word :=
  (splitChar (sepOf w) w).foldl (keystrokeStep (sepOf w)) []

/-- A parsed command argument. -/
inductive Arg where
  | str (w : Word)
  | num (n : JsNum)
  | keys (ks : List Word)
  deriving DecidableEq, Repr

/-- The client methods commands dispatch to (`keyof Client`). -/
inductive Method where
  | keysPress
  | keysDown
  | keysUp
  | type
  | mouseMove
  | mouseClick
  | mouseDoubleClick
  | mouseButtonDown
  | mouseButtonUp
  | scroll
  | captureScreen
  | captureScreenToFile
  | pause
  | disconnect
  deriving DecidableEq, Repr

/-- A parsed command: target method and argument list. -/
abbrev Command := Method × List Arg

/-- Value of an all-digit word. -/
def digitsVal (w : Word) : Nat :=
  w.foldl (fun acc c => 10 * acc + (c.toNat - '0'.toNat)) 0

/-- A hexadecimal digit. -/
def isHexDigitC (c : Char) : Bool :=
  c.isDigit || ('a' ≤ c && c ≤ 'f') || ('A' ≤ c && c ≤ 'F')

/-- Value of an all-hex-digit word. -/
def hexDigitsVal (w : Word) : Nat :=
  w.foldl (fun acc c => 16 * acc +
    (if c.isDigit then c.toNat - '0'.toNat
     else if 'a' ≤ c && c ≤ 'f' then c.toNat - 'a'.toNat + 10
     else c.toNat - 'A'.toNat + 10)) 0

/-- The `[+-]?digits` tail of an exponent part. -/
def expTail (r : List Char) : Bool :=
  let r2 := if r.head? = some '+' || r.head? = some '-' then r.tail else r
  !r2.isEmpty && r2.all Char.isDigit

/-- A well-formed exponent part `[eE][+-]?digits`. -/
def expPartOk (l : List Char) : Bool :=
  match l with
  | 'e' :: r => expTail r
  | 'E' :: r => expTail r
  | _ => false

/-- JavaScript `Number(string)`: trimmed empty input is 0; hex, octal and
binary literals and plain signed decimal integers give exact integers;
other well-formed numeric literals (fractions, exponents, Infinity) are
valid numbers kept symbolically as `rep`; everything else is NaN. The
claims only ever distinguish NaN from non-NaN and use exact integer
values. -/
def jsStrToNumber (w : Word) : JsNum :=
  let t := ((w.dropWhile jsWhitespace).reverse.dropWhile jsWhitespace).reverse
  if t.isEmpty then .int 0
  else if t.take 2 = ['0', 'x'] ∨ t.take 2 = ['0', 'X'] then
    let ds := t.drop 2
    if !ds.isEmpty && ds.all isHexDigitC then .int (hexDigitsVal ds) else .nan
  else if t.take 2 = ['0', 'o'] ∨ t.take 2 = ['0', 'O'] then
    let ds := t.drop 2
    if !ds.isEmpty && ds.all (fun c => '0' ≤ c && c ≤ '7') then
      .int (ds.foldl (fun acc c => 8 * acc + (c.toNat - '0'.toNat)) 0)
    else .nan
  else if t.take 2 = ['0', 'b'] ∨ t.take 2 = ['0', 'B'] then
    let ds := t.drop 2
    if !ds.isEmpty && ds.all (fun c => c = '0' || c = '1') then
      .int (ds.foldl (fun acc c => 2 * acc + (c.toNat - '0'.toNat)) 0)
    else .nan
  else
    let sgn : Int := if t.head? = some '-' then -1 else 1
    let t1 := if t.head? = some '-' || t.head? = some '+' then t.tail else t
    if t1 = "Infinity".toList then .rep w
    else
      let intPart := t1.takeWhile Char.isDigit
      let after := t1.drop intPart.length
      if after.isEmpty then
        if intPart.isEmpty then .nan else .int (sgn * Int.ofNat (digitsVal intPart))
      else if after.head? = some '.' then
        let frac := after.tail.takeWhile Char.isDigit
        let rest3 := after.tail.drop frac.length
        if intPart.isEmpty && frac.isEmpty then .nan
        else if rest3.isEmpty || expPartOk rest3 then .rep w
        else .nan
      else if !intPart.isEmpty && expPartOk after then .rep w
      else .nan

/-- The `Keystroke` argument parser. -/
def KeystrokeParam (value : Word) (_cmd : Word) : Except CmdErr Arg :=
  .ok (.keys (Keystroke value))

/-- The `String` argument parser (identity on a string). -/
def StringParam (value : Word) (_cmd : Word) : Except CmdErr Arg :=
  .ok (.str value)

/-- `UnsignedInt` (commands.ts): requires `^\d+$`. -/
def UnsignedIntParam (value : Word) (cmd : Word) : Except CmdErr Arg :=
  if !value.isEmpty && value.all Char.isDigit then
    .ok (.num (.int (Int.ofNat (digitsVal value))))
  else
    .error ⟨.invalidArgument, cmd⟩

/-- `SignedInt` (commands.ts): requires `^-?\d+$`. -/
def SignedIntParam (value : Word) (cmd : Word) : Except CmdErr Arg :=
  match value with
  | '-' :: ds =>
    if !ds.isEmpty && ds.all Char.isDigit then
      .ok (.num (.int (-(Int.ofNat (digitsVal ds)))))
    else
      .error ⟨.invalidArgument, cmd⟩
  | ds =>
    if !ds.isEmpty && ds.all Char.isDigit then
      .ok (.num (.int (Int.ofNat (digitsVal ds))))
    else
      .error ⟨.invalidArgument, cmd⟩

/-- `ValidNumber` (commands.ts): any value `Number` does not parse to
NaN. -/
def ValidNumberParam (value : Word) (cmd : Word) : Except CmdErr Arg :=
  match jsStrToNumber value with
  | .nan => .error ⟨.invalidArgument, cmd⟩
  | j => .ok (.num j)

/-! ## Command registry, parser and interpreter (commands.ts) -/

/-- One entry of the `Commands` registry. -/
structure CommandInfo where
  desc : String
  method : Method
  params : List (Word → Word → Except CmdErr Arg)

/-- The `Commands` registry, in source order. Note that `doubleclick`
maps to the method `mouseClick` with only the button parameter, exactly
as in the source. -/
def Commands : List (Word × CommandInfo) :=
  [("key".toList,
    ⟨"Press <keystroke> (keydown and keyup).", .keysPress, [KeystrokeParam]⟩),
   ("keydown".toList,
    ⟨"Hold down <keystroke>.", .keysDown, [KeystrokeParam]⟩),
   ("keyup".toList,
    ⟨"Release <keystroke>.", .keysUp, [KeystrokeParam]⟩),
   ("type".toList,
    ⟨"Type <text> as if you had typed it.", .type, [StringParam]⟩),
   ("move".toList,
    ⟨"Move the mouse cursor to <X> <Y> coordinates.", .mouseMove,
     [UnsignedIntParam, UnsignedIntParam]⟩),
   ("mousemove".toList,
    ⟨"Alias for move.", .mouseMove, [UnsignedIntParam, UnsignedIntParam]⟩),
   ("click".toList,
    ⟨"Send a mouse <button> click (mousedown followed by mouseup).",
     .mouseClick, [StringParam]⟩),
   ("doubleclick".toList,
    ⟨"Send a mouse <button> double-click.", .mouseClick, [StringParam]⟩),
   ("mousedown".toList,
    ⟨"Hold down mouse <button>.", .mouseButtonDown, [StringParam]⟩),
   ("mouseup".toList,
    ⟨"Release mouse <button>.", .mouseButtonUp, [StringParam]⟩),
   ("scroll".toList,
    ⟨"Scroll number of <lines> up (positive number) or down (negative number).",
     .scroll, [SignedIntParam]⟩),
   ("capture".toList,
    ⟨"Save current screen as <file>.", .captureScreenToFile, [StringParam]⟩),
   ("pause".toList,
    ⟨"Wait <seconds> before sending next command.", .pause, [ValidNumberParam]⟩)]

/-- The `info.params.map(parse => parse(words.shift()!, cmd))` step:
runs the parsers left to right, shifting one word each, and returns the
remaining words (at the point of a throw, for errors). The empty-words
case is unreachable because `parseCommands` checks the arity first. -/
def parseParamsAux (cmd : Word) :
    List (Word → Word → Except CmdErr Arg) → List Word →
    Except CmdErr (List Arg) × List Word
  | [], ws => (.ok [], ws)
  | _ :: _, [] => (.error ⟨.invalidArgument, cmd⟩, [])
  | p :: ps, v :: ws =>
    match p v cmd with
    | .error e => (.error e, ws)
    | .ok a =>
      match parseParamsAux cmd ps ws with
      | (.ok args, ws2) => (.ok (a :: args), ws2)
      | (.error e, ws2) => (.error e, ws2)

/-- The `while (words.length > 0)` loop of `parseCommands`, returning
also the state of the (shifted) word array when the loop exits or
throws. The fuel only bounds the recursion: every iteration shifts at
least the command word, so `words.length + 1` is always sufficient. -/
def parseLoopAux : Nat → List Word → Except CmdErr (List Command) × List Word
  | 0, ws => (.ok [], ws)
  | _ + 1, [] => (.ok [], [])
  | fuel + 1, cmd :: ws =>
    match (Commands.find? (fun p => p.1 = cmd)).map (fun p => p.2) with
    | none => (.error ⟨.unknown, cmd⟩, ws)
    | some info =>
      if ws.length < info.params.length then
        (.error ⟨.invalidArgument, cmd⟩, ws)
      else
        match parseParamsAux cmd info.params ws with
        | (.error e, ws2) => (.error e, ws2)
        | (.ok args, ws2) =>
          match parseLoopAux fuel ws2 with
          | (.ok cmds, ws3) => (.ok ((info.method, args) :: cmds), ws3)
          | (.error e, ws3) => (.error e, ws3)

/-- `parseCommands` on the contents of the local word array, returning
the leftover array contents as well. -/
def parseCommandsWithRest (ws : List Word) :
    Except CmdErr (List Command) × List Word :=
  parseLoopAux (ws.length + 1) ws

/-- `parseCommands` (commands.ts), as a pure function of the word-list
contents. -/
def parseCommands (ws : List Word) : Except CmdErr (List Command) :=
  (parseCommandsWithRest ws).1

/-- A heap of JavaScript arrays, addressed by reference (index). -/
abbrev Store := List (List Word)

/-- Read the array a reference points to. -/
def readArr (σ : Store) (r : Nat) : List Word :=
  σ[r]?.getD []

/-- `parseCommands` as the caller observes it through the array heap:
`words = [...words]` allocates a fresh array holding a copy of the
caller's contents, and every `shift()` of the loop mutates that fresh
array only; the final heap records its leftover state. -/
def parseCommandsRef (σ : Store) (r : Nat) :
    Except CmdErr (List Command) × Store :=
  let ws := readArr σ r
  let r1 := σ.length
  let res := parseCommandsWithRest ws
  (res.1, (σ ++ [ws]).set r1 res.2)

/-- Dispatch of one parsed command by `interpretCommands`
(`client[cmd](...args)`). Argument shapes that `parseCommands` never
produces fall through to an error. -/
def applyCommand (cfg : Config) : Command → CState → OpRes
  | (.keysPress, [.keys ks]), st => keysPressOp cfg (ks.map KeyRef.name) st
  | (.keysDown, [.keys ks]), st => keysDownOp cfg (ks.map KeyRef.name) st
  | (.keysUp, [.keys ks]), st => keysUpOp cfg (ks.map KeyRef.name) st
  | (.type, [.str s]), st => typeOp cfg s st
  | (.mouseMove, [.num (.int x), .num (.int y)]), st => mouseMoveOp x y st
  | (.mouseClick, [.str b]), st => mouseClickOp cfg b 1 [] st
  | (.mouseDoubleClick, [.str b]), st => mouseDoubleClickOp cfg b st
  | (.mouseButtonDown, [.str b]), st => mouseButtonDownOp b st
  | (.mouseButtonUp, [.str b]), st => mouseButtonUpOp b st
  | (.scroll, [.num (.int n)]), st => scrollOp cfg n st
  | (.captureScreenToFile, [.str f]), st => captureScreenToFileOp f st
  | (.pause, [.num j]), st => pauseOp j st
  | _, _ => (.error .badDispatch, [])

/-- `interpretCommands` (commands.ts): run the commands in order,
awaiting each; the first failure aborts the rest. -/
def interpretCommands (cfg : Config) : List Command → CState → OpRes
  | [], st => (.ok st, [])
  | c :: cs, st => opSeq (applyCommand cfg c st) fun st => interpretCommands cfg cs st

/-! ## Specification-side definitions

Definitions in this section follow the wording of the specification (not
the source); the theorems below compare them with the source model. -/

/-- The fallback encoding rule as the specification states it: control
code points to `0xFF00 | n`, Latin-1 code points to themselves, larger
code points to `0x01000000 | n`. -/
def specKeysymOfCodePoint (n : Nat) : Nat :=
  if n ≤ 0x1f ∨ (0x7f ≤ n ∧ n ≤ 0x9f) then 0xff00 ||| n
  else if n ≤ 0xff then n
  else 0x01000000 ||| n

/-- The scroll event sequence as the specification states it: repeat
`n` times "button down (state `sT`), toggle delay, button up (state
`sF`)", with a toggle delay between repeats. -/
def specScrollEvents (t : Nat) (sT sF : MouseState) : Nat → List Event
  | 0 => []
  | 1 => [.sendMouse sT, .delay t, .sendMouse sF]
  | n + 2 =>
    [.sendMouse sT, .delay t, .sendMouse sF, .delay t] ++
      specScrollEvents t sT sF (n + 1)

/-- Transport events carrying a full pointer state. -/
def isMouseEvent : Event → Bool
  | .sendMouse _ => true
  | _ => false

/-- The keystroke merging rule as the specification states it: collapse
every adjacent pair whose first element is empty into the single key
`separator + following segment`. -/
def mergeSpec (sep : Char) : List Word → List Word
  | [] => []
  | [] :: key :: rest => (sep :: key) :: mergeSpec sep rest
  | w :: rest => w :: mergeSpec sep rest

/-- A keymap whose `printable` and `combined` tables both contain the
character `a` (no shipped keymap has such a collision). -/
def collideKeymap : Keymap :=
  { name := "collide".toList
    allowFallback := false
    modifiers := []
    control := ControlKeysyms
    printable := [(['a'], some 0x61)]
    combined := [(['a'], some [0xffe1, 0x41])] }

/-- The default configuration: US keymap, `toggleDelay = 12`,
`doubleClickDelay = 100`, `delayBetweenKeys = 50`. -/
def defCfg : Config := { keymap := usKeymap }

/-- A connected executor state with a fresh pointer record. -/
def connSt : CState := { connected := true }

/-! ## Claims -/

/-- C1: the claim states that the command `doubleclick <button>` is
interpreted as a double click, equivalent to `mouseClick(button, 2)`.
The code contradicts its own description (`"Send a mouse <button>
double-click."`) and the `mouseDoubleClick` method kept for commands:
the registry maps `doubleclick` to the method `mouseClick` with only the
button argument, so interpreting the parsed command performs
`mouseClick("Left")` — a single down/up pair — and its event trace
differs from `mouseClick("Left", 2)`. -/
theorem c1_doubleclick_is_single_click :
    parseCommands ["doubleclick".toList, "Left".toList] =
      .ok [(.mouseClick, [.str "Left".toList])] ∧
    interpretCommands defCfg [(.mouseClick, [.str "Left".toList])] connSt =
      (.ok connSt, [.sendMouse { left := true }, .delay 12, .sendMouse {}]) ∧
    (interpretCommands defCfg [(.mouseClick, [.str "Left".toList])] connSt).2 ≠
      (mouseClickOp defCfg "Left".toList 2 [] connSt).2 := by
  refine ⟨by decide, by decide, by decide⟩

/-- C2: every client operation is wrapped by the connectivity guard:
when the tunnel is not connected it fails with the Not-Connected error,
emits no transport event, and produces no successor state (so the
pointer state is untouched). -/
theorem c2_not_connected_guard (cfg : Config) (op : ClientOp) (st : CState)
    (h : st.connected = false) :
    runOp cfg op st = (.error .notConnected, []) := by
  cases op <;>
    simp [runOp, keysPressOp, keysDownOp, keysUpOp, typeOp, mouseClickOp,
      mouseDoubleClickOp, mouseButtonDownOp, mouseButtonUpOp, scrollOp,
      mouseMoveOp, captureScreenOp, captureScreenToFileOp, pauseOp,
      disconnectOp, checkConnected, h]

/-- Witness for C2 at a concrete disconnected state and operation. -/
theorem c2_not_connected_guard_witness :
    ({ connected := false } : CState).connected = false ∧
    runOp defCfg (.pause (.int 1)) { connected := false } =
      (.error .notConnected, []) :=
  ⟨rfl, c2_not_connected_guard defCfg (.pause (.int 1)) { connected := false } rfl⟩

/-- `takeWhile` keeps a list all of whose elements satisfy the
predicate. -/
theorem takeWhile_all {α : Type} (p : α → Bool) :
    ∀ (l : List α), (∀ c ∈ l, p c = true) → l.takeWhile p = l
  | [], _ => rfl
  | c :: l, h => by
    rw [List.takeWhile_cons_of_pos (h c (by simp)),
      takeWhile_all p l (fun c hc => h c (by simp [hc]))]

/-- `dropWhile` empties a list all of whose elements satisfy the
predicate. -/
theorem dropWhile_all {α : Type} (p : α → Bool) :
    ∀ (l : List α), (∀ c ∈ l, p c = true) → l.dropWhile p = []
  | [], _ => rfl
  | c :: l, h => by
    rw [List.dropWhile_cons_of_pos (h c (by simp))]
    exact dropWhile_all p l (fun c hc => h c (by simp [hc]))

/-- A scan (with fuel left) standing unquoted at a whitespace directly
followed by `#` and a newline-free comment consumes the rest of the
input as one whitespace-plus-comment match and strips it, starting no
new word. -/
theorem scanAux_ws_comment (fuel : Nat) (hf : 0 < fuel) (cs : List Char)
    (hnl : '\n' ∉ cs) (cur : Word) (accRev : List Word) :
    scanAux fuel (' ' :: '#' :: cs) false false cur accRev =
      ⟨(cur :: accRev).reverse, false⟩ := by
  obtain ⟨fuel, rfl⟩ : ∃ k, fuel = k + 1 := ⟨fuel - 1, by omega⟩
  have hall : ∀ c ∈ '#' :: cs, (fun x => !decide (x = '\n')) c = true := by
    intro c hc
    simp only [Bool.not_eq_true', decide_eq_false_iff_not]
    intro e
    subst e
    simp only [List.mem_cons] at hc
    rcases hc with hc | hc
    · exact absurd hc (by decide)
    · exact hnl hc
  simp only [scanAux]
  simp [scanAux, jsWhitespace, dropWhile_all _ ('#' :: cs) hall]

/-- C3 counterexample: the input `"# a"` consists of nothing but a
comment at the very start of the input (a `#` with all following
characters, no newline present), yet tokenizing it produces the
non-empty word `a`: the unterminated anchored-comment alternative never
matches, so the `#` is consumed as a word token (stripped) only up to
the first whitespace and the remainder is tokenized normally. -/
theorem c3_start_comment_cex :
    parseScriptToWords "# a".toList = ⟨[[], ['a']], false⟩ ∧
    ¬ ((parseScriptToWords "# a".toList).words.all List.isEmpty) := by
  refine ⟨by decide, by decide⟩

/-- C3 (amended): outside double quotes, a comment right after a
whitespace run is stripped entirely up to the end of the line; a comment
at the very start of the input is stripped entirely when terminated by a
newline, and when unterminated it is stripped only as far as it contains
no whitespace, double quote or backslash. In particular an input that is
only a start-of-input comment yields no non-empty words when the comment
is newline-terminated (first part) or its text consists of word
characters (second part); and a word followed by a whitespace-run
comment keeps exactly that word (third part). -/
theorem c3_comment_stripping_amended :
    (∀ cs : List Char, '\n' ∉ cs →
      (parseScriptToWords ('#' :: cs ++ ['\n'])).words = [[]]) ∧
    (∀ cs : List Char, (∀ c ∈ cs, wordChar c = true) →
      (parseScriptToWords ('#' :: cs)).words = [[]]) ∧
    (∀ (w cs : List Char), w ≠ [] → w.head? ≠ some '#' →
      (∀ c ∈ w, wordChar c = true) → '\n' ∉ cs →
      (parseScriptToWords (w ++ ' ' :: '#' :: cs)).words = [w]) := by
  refine ⟨?_, ?_, ?_⟩
  · intro cs h
    have hall : ∀ c ∈ cs, (fun x => decide (x ≠ '\n')) c = true := by
      intro c hc
      simp only [decide_eq_true_eq, ne_eq]
      intro e
      exact h (e ▸ hc)
    unfold parseScriptToWords
    simp only [scanAux, List.length_cons, List.append_eq]
    rw [List.dropWhile_append_of_pos hall]
    simp [scanAux]
  · intro cs h
    have hmem : '\n' ∉ cs := fun hc => absurd (h _ hc) (by decide)
    unfold parseScriptToWords
    simp only [scanAux, List.length_cons]
    simp [scanAux, hmem, takeWhile_all wordChar cs h, dropWhile_all wordChar cs h,
      (by decide : jsWhitespace '#' = false)]
  · intro w cs hw hh hwc hnl
    obtain ⟨a, w', rfl⟩ : ∃ a w', w = a :: w' := by
      cases w with
      | nil => exact absurd rfl hw
      | cons a w' => exact ⟨a, w', rfl⟩
    have ha : wordChar a = true := hwc a (by simp)
    have ha' : ∀ c ∈ w', wordChar c = true := fun c hc => hwc c (by simp [hc])
    have hah : ¬ (a = '#') := by
      intro e
      exact hh (by simp [e])
    have hab : ¬ (a = '\\') := by
      intro e
      subst e
      exact absurd ha (by decide)
    have haq : ¬ (a = '"') := by
      intro e
      subst e
      exact absurd ha (by decide)
    have haw : jsWhitespace a = false := by
      rcases hjw : jsWhitespace a with _ | _
      · rfl
      · exact absurd ha (by simp [wordChar, hjw])
    unfold parseScriptToWords
    simp only [List.cons_append, scanAux, List.length_cons, List.append_eq]
    rw [List.takeWhile_append_of_pos ha', List.dropWhile_append_of_pos ha']
    simp only [List.takeWhile_cons_of_neg (by decide : ¬ (wordChar ' ' = true)),
      List.dropWhile_cons_of_neg (by decide : ¬ (wordChar ' ' = true))]
    simp [hah, hab, haq, haw]
    rw [scanAux_ws_comment _ (by omega) cs hnl]
    simp

/-- Witness for C3 (amended), instantiating all three parts: the
newline-terminated start comment `#ab\n`, the unterminated word-shaped
start comment `#ab`, and `key #ab`. -/
theorem c3_comment_stripping_amended_witness :
    (parseScriptToWords ('#' :: "ab".toList ++ ['\n'])).words = [[]] ∧
    (parseScriptToWords ('#' :: "ab".toList)).words = [[]] ∧
    (parseScriptToWords ("key".toList ++ ' ' :: '#' :: "ab".toList)).words =
      ["key".toList] :=
  ⟨c3_comment_stripping_amended.1 "ab".toList (by decide),
   c3_comment_stripping_amended.2.1 "ab".toList (by decide),
   c3_comment_stripping_amended.2.2 "key".toList "ab".toList (by decide)
     (by decide) (by decide) (by decide)⟩

/-- Inside the valid code-point range, the source's fallback encoding
agrees with the specification's rule. -/
theorem keysymFromCodePoint_eq_spec (n : Nat) (h : n ≤ 0x10ffff) :
    keysymFromCodePoint n = .ok (specKeysymOfCodePoint n) := by
  unfold keysymFromCodePoint specKeysymOfCodePoint
  by_cases h1 : n ≤ 0x1f ∨ 0x7f ≤ n ∧ n ≤ 0x9f
  · rw [if_pos h1, if_pos h1]
  · rw [if_neg h1, if_neg h1]
    by_cases h2 : n ≤ 0xff
    · rw [if_pos h2, if_pos h2]
    · rw [if_neg h2, if_neg h2, if_pos (by omega)]

/-- C4: for a character missing from the derived character map, with
fallback allowed, `translateChar` returns the single keysym given by the
specification's code-point rule (any single JavaScript character is one
UTF-16 code unit, hence below `0x10000`); and the three concrete
examples on the `direct` keymap: SOH to `0xFF01`, `é` to `0x00E9`, `€`
to `0x010020AC`. -/
theorem c4_fallback_encoding (km : Keymap) (c : Char)
    (hbmp : c.toNat < 0x10000)
    (hmiss : charsMapGet km c = none)
    (hfb : km.allowFallback = true) :
    translateChar km c = .ok [specKeysymOfCodePoint c.toNat] ∧
    translateChar directKeymap '\x01' = .ok [0xff01] ∧
    translateChar directKeymap 'é' = .ok [0x00e9] ∧
    translateChar directKeymap '€' = .ok [0x010020ac] := by
  refine ⟨?_, by decide, by decide, by decide⟩
  have hle : ¬ (0x10000 ≤ c.toNat) := by omega
  simp only [translateChar, hle, if_false, hmiss, hfb, if_true,
    keysymFromCodePoint_eq_spec c.toNat (by omega), Except.map]

/-- Witness for C4 at the `direct` keymap and the character `A`. -/
theorem c4_fallback_encoding_witness :
    ('A'.toNat < 0x10000 ∧ charsMapGet directKeymap 'A' = none ∧
      directKeymap.allowFallback = true) ∧
    translateChar directKeymap 'A' = .ok [specKeysymOfCodePoint 'A'.toNat] :=
  ⟨⟨by decide, by decide, by decide⟩,
   (c4_fallback_encoding directKeymap 'A' (by decide) (by decide) (by decide)).1⟩

/-- C5: `mouseClick("Left", 2)` with the default delays emits exactly
left-down, 12 ms, left-up, 100 ms, left-down, 12 ms, left-up — one
100 ms gap in total, no modifier key events, no trailing delay. -/
theorem c5_mouse_double_click_trace :
    mouseClickOp defCfg "Left".toList 2 [] connSt =
      (.ok connSt,
       [.sendMouse { left := true }, .delay 12, .sendMouse {},
        .delay 100,
        .sendMouse { left := true }, .delay 12, .sendMouse {}]) := by
  decide

/-- The source's fold with the merging step, started from an
accumulator not ending in an empty segment, appends exactly the
specification's merge of the remaining segments. -/
theorem keystroke_foldl_eq_mergeSpec (sep : Char) :
    ∀ (parts acc : List Word), acc.getLast? ≠ some [] →
      parts.foldl (keystrokeStep sep) acc = acc ++ mergeSpec sep parts
  | [], acc, h => by simp [mergeSpec]
  | [] :: key :: rest, acc, h => by
    have h1 : keystrokeStep sep acc [] = acc ++ [[]] := by
      unfold keystrokeStep; rw [if_neg h]
    have h2 : keystrokeStep sep (acc ++ [[]]) key = acc ++ [sep :: key] := by
      unfold keystrokeStep
      rw [if_pos (by rw [List.getLast?_concat])]
      rw [List.dropLast_concat]
    calc ([] :: key :: rest).foldl (keystrokeStep sep) acc
        = rest.foldl (keystrokeStep sep) (acc ++ [sep :: key]) := by
          simp [List.foldl_cons, h1, h2]
      _ = acc ++ [sep :: key] ++ mergeSpec sep rest :=
          keystroke_foldl_eq_mergeSpec sep rest (acc ++ [sep :: key])
            (by rw [List.getLast?_concat]; simp)
      _ = acc ++ mergeSpec sep ([] :: key :: rest) := by simp [mergeSpec]
  | [[]], acc, h => by
    have h1 : keystrokeStep sep acc [] = acc ++ [[]] := by
      unfold keystrokeStep; rw [if_neg h]
    simp [List.foldl_cons, h1, mergeSpec]
  | (c :: w) :: rest, acc, h => by
    have h1 : keystrokeStep sep acc (c :: w) = acc ++ [c :: w] := by
      unfold keystrokeStep; rw [if_neg h]
    calc ((c :: w) :: rest).foldl (keystrokeStep sep) acc
        = rest.foldl (keystrokeStep sep) (acc ++ [c :: w]) := by
          simp [List.foldl_cons, h1]
      _ = acc ++ [c :: w] ++ mergeSpec sep rest :=
          keystroke_foldl_eq_mergeSpec sep rest (acc ++ [c :: w])
            (by rw [List.getLast?_concat]; simp)
      _ = acc ++ mergeSpec sep ((c :: w) :: rest) := by simp [mergeSpec]

/-- C7: `Keystroke` splits on the separator occurring first in the
string (ties and absence resolving to `-`) and collapses adjacent pairs
with an empty first element exactly as the specification's merge rule
states; in particular `Ctrl+Shift+c` gives `[Ctrl, Shift, c]` and
`Ctrl++` gives `[Ctrl, +]`. -/
theorem c7_keystroke_split :
    (∀ w : Word, Keystroke w = mergeSpec (sepOf w) (splitChar (sepOf w) w)) ∧
    (∀ w : Word, sepOf w = '+' ↔
      ∃ i, w.findIdx? (fun c => c = '+') = some i ∧
        ∀ j, w.findIdx? (fun c => c = '-') = some j → i < j) ∧
    Keystroke "Ctrl+Shift+c".toList = ["Ctrl".toList, "Shift".toList, "c".toList] ∧
    Keystroke "Ctrl++".toList = ["Ctrl".toList, "+".toList] := by
  refine ⟨?_, ?_, by decide, by decide⟩
  · intro w
    unfold Keystroke
    rw [keystroke_foldl_eq_mergeSpec (sepOf w) (splitChar (sepOf w) w) [] (by simp)]
    simp
  · intro w
    unfold sepOf
    rcases h1 : w.findIdx? (fun c => c = '+') with _ | i <;>
      rcases h2 : w.findIdx? (fun c => c = '-') with _ | j <;> simp

/-- C8 counterexample: on a keymap where `a` is in both the printable
and the combined table, `translateChar` returns the combined sequence,
not the printable one — the claim's "printable takes precedence over
combined" fails. -/
theorem c8_printable_precedence_cex :
    lookupLastSome collideKeymap.printable ['a'] = some 0x61 ∧
    translateChar collideKeymap 'a' = .ok [0xffe1, 0x41] ∧
    translateChar collideKeymap 'a' ≠ .ok [0x61] := by
  refine ⟨by decide, by decide, by decide⟩

/-- C8 (amended): for a single character other than the fixed
newline/space/tab overrides, when the combined table has no entry, a
printable entry is returned as its single-code sequence; on a common key
the combined table takes precedence (the character map is built
printable-first, combined overwriting). -/
theorem c8_char_lookup_amended (km : Keymap) (c : Char) (code : Nat)
    (hn : c ≠ '\n') (hs : c ≠ ' ') (ht : c ≠ '\t')
    (hbmp : c.toNat < 0x10000)
    (hcomb : lookupLastSome km.combined [c] = none)
    (hprint : lookupLastSome km.printable [c] = some code) :
    translateChar km c = .ok [code] := by
  unfold translateChar charsMapGet
  rw [if_neg (by omega)]
  simp [hn, hs, ht, hcomb, hprint]

/-- Witness for C8 (amended) at the US keymap and the character `a`. -/
theorem c8_char_lookup_amended_witness :
    lookupLastSome usKeymap.combined ['a'] = none ∧
    lookupLastSome usKeymap.printable ['a'] = some 0x61 ∧
    translateChar usKeymap 'a' = .ok [0x61] :=
  ⟨by decide, by decide,
   c8_char_lookup_amended usKeymap 'a' 0x61 (by decide) (by decide) (by decide)
     (by decide) (by decide) (by decide)⟩

/-- Writing the same button property twice keeps only the last write. -/
theorem setProp_setProp (ms : MouseState) (p : MProp) (b b2 : Bool) :
    setProp (setProp ms p b) p b2 = setProp ms p b2 := by
  cases p <;> rfl

/-- One unfolding of the scroll loop. -/
theorem scrollLoop_succ (cfg : Config) (b : Word) (n : Nat) (st : CState) :
    scrollLoop cfg b (n + 1) st =
      (opSeq (mouseButtonDownOp b st) fun st =>
       opSeq (emit [.delay cfg.toggleDelay] st) fun st =>
       opSeq (mouseButtonUpOp b st) fun st =>
       opSeq (emit (if n > 0 then [.delay cfg.toggleDelay] else []) st) fun st =>
       scrollLoop cfg b n st) := rfl

/-- The scroll loop of the source equals the specification's event
shape, for any button word that resolves to a fixed state property. -/
theorem scrollLoop_eq_spec (cfg : Config) (b : Word) (p : MProp)
    (hset : ∀ ms dn, setMouseButtonState b dn ms = .ok (setProp ms p dn))
    (n : Nat) :
    ∀ (ms : MouseState) (d : Nat × Nat),
      scrollLoop cfg b n ⟨true, ms, d⟩ =
        (.ok (if n = 0 then (⟨true, ms, d⟩ : CState) else ⟨true, setProp ms p false, d⟩),
         specScrollEvents cfg.toggleDelay (setProp ms p true) (setProp ms p false) n) := by
  induction n with
  | zero => intro ms d; simp [scrollLoop, specScrollEvents]
  | succ n ih =>
    intro ms d
    rw [scrollLoop_succ]
    simp only [mouseButtonDownOp, mouseButtonUpOp, checkConnected, hset, opSeq, emit]
    simp only [CState.connected, CState.mouse, CState.display, if_true, ite_true,
      eq_self_iff_true, setProp_setProp]
    rw [ih (setProp ms p false) d]
    cases n <;> simp [specScrollEvents, setProp_setProp]

/-- Every delay in the specification's scroll trace is the toggle
delay. -/
theorem specScrollEvents_delay (t : Nat) (sT sF : MouseState) :
    ∀ (n : Nat) (d : Nat), Event.delay d ∈ specScrollEvents t sT sF n → d = t
  | 0, d, h => by simp [specScrollEvents] at h
  | 1, d, h => by
    simp [specScrollEvents] at h
    exact h
  | n + 2, d, h => by
    simp only [specScrollEvents, List.mem_append, List.mem_cons,
      List.not_mem_nil, or_false] at h
    rcases h with h | h
    · rcases h with h | h | h | h <;> simp_all
    · exact specScrollEvents_delay t sT sF (n + 1) d h

/-- The specification's scroll trace has two pointer-state events per
repeat. -/
theorem specScrollEvents_mouse_count (t : Nat) (sT sF : MouseState) :
    ∀ n : Nat, (specScrollEvents t sT sF n).countP isMouseEvent = 2 * n
  | 0 => by simp [specScrollEvents]
  | 1 => by simp [specScrollEvents, List.countP_cons, isMouseEvent]
  | n + 2 => by
    simp only [specScrollEvents, List.countP_append, List.countP_cons,
      specScrollEvents_mouse_count t sT sF (n + 1)]
    simp [isMouseEvent]
    ring

/-- C6: `scroll(lines)` while connected uses ScrollUp for positive
`lines` and ScrollDown otherwise, and its trace is exactly the
specification's shape: `abs(lines)` down/up pairs in which every gap —
within a pair and between repeats — is the toggle delay (never the
double-click delay), hence `2*abs(lines)` pointer events. -/
theorem c6_scroll_trace (cfg : Config) (lines : Int) (st : CState)
    (h : st.connected = true) :
    scrollOp cfg lines st =
      (.ok (if lines.natAbs = 0 then st
            else { st with mouse := setProp st.mouse (if lines > 0 then .up else .down) false }),
       specScrollEvents cfg.toggleDelay
         (setProp st.mouse (if lines > 0 then .up else .down) true)
         (setProp st.mouse (if lines > 0 then .up else .down) false)
         lines.natAbs) ∧
    (∀ d, Event.delay d ∈ (scrollOp cfg lines st).2 → d = cfg.toggleDelay) ∧
    (scrollOp cfg lines st).2.countP isMouseEvent = 2 * lines.natAbs := by
  obtain ⟨c, ms, d⟩ := st
  simp only [CState.connected] at h
  subst h
  have hmain :
      scrollOp cfg lines ⟨true, ms, d⟩ =
        (.ok (if lines.natAbs = 0 then (⟨true, ms, d⟩ : CState)
              else ⟨true, setProp ms (if lines > 0 then .up else .down) false, d⟩),
         specScrollEvents cfg.toggleDelay
           (setProp ms (if lines > 0 then .up else .down) true)
           (setProp ms (if lines > 0 then .up else .down) false)
           lines.natAbs) := by
    unfold scrollOp checkConnected
    by_cases hl : lines > 0
    · simp only [hl, if_true, CState.connected]
      exact scrollLoop_eq_spec cfg ("ScrollUp".toList) .up (fun ms dn => rfl)
        lines.natAbs ms d
    · simp only [hl, if_false, CState.connected, ite_true, ite_false]
      exact scrollLoop_eq_spec cfg ("ScrollDown".toList) .down (fun ms dn => rfl)
        lines.natAbs ms d
  refine ⟨hmain, ?_, ?_⟩
  · intro d hd
    rw [hmain] at hd
    exact specScrollEvents_delay _ _ _ _ _ hd
  · rw [hmain]
    exact specScrollEvents_mouse_count _ _ _ _

/-- Witness for C6: `scroll(-3)` on a connected state emits exactly 3
ScrollDown down/up pairs. -/
theorem c6_scroll_trace_witness :
    connSt.connected = true ∧
    (scrollOp defCfg (-3) connSt).2.countP isMouseEvent = 2 * ((-3 : Int)).natAbs :=
  ⟨rfl, (c6_scroll_trace defCfg (-3) connSt rfl).2.2⟩

/-- C9: a `0x`-prefixed key never consults the keymap tables (the result
is the same for every keymap) and never raises Unknown-key: it is the
hexadecimal parse of the remainder, which is NaN — not an error — for
inputs like `0x` and `0xzz`. -/
theorem c9_hex_passthrough (km km2 : Keymap) (key : Word)
    (h : key.take 2 = ['0', 'x']) :
    translateKeyStr km key = .ok (parseIntHex (key.drop 2)) ∧
    translateKeyStr km key = translateKeyStr km2 key ∧
    translateKeyStr km "0x".toList = .ok .nan ∧
    translateKeyStr km "0xzz".toList = .ok .nan := by
  refine ⟨?_, ?_, ?_, ?_⟩
  · unfold translateKeyStr
    rw [if_pos h]
  · unfold translateKeyStr
    rw [if_pos h, if_pos h]
  · unfold translateKeyStr
    rw [if_pos (by decide)]
    decide
  · unfold translateKeyStr
    rw [if_pos (by decide)]
    decide

/-- Witness for C9 at the US keymap and the key `0x41`. -/
theorem c9_hex_passthrough_witness :
    ("0x41".toList).take 2 = ['0', 'x'] ∧
    translateKeyStr usKeymap "0x41".toList = .ok (parseIntHex (("0x41".toList).drop 2)) :=
  ⟨by decide, (c9_hex_passthrough usKeymap directKeymap "0x41".toList (by decide)).1⟩

/-- C10: `parseCommands` copies its argument (`words = [...words]`) and
shifts only the copy: through the array heap, the caller's array is
unchanged after the call — whether parsing succeeds or throws — and the
result is the pure function of the caller's contents. -/
theorem c10_parse_commands_frame (σ : Store) (r : Nat) (h : r < σ.length) :
    readArr (parseCommandsRef σ r).2 r = readArr σ r ∧
    (parseCommandsRef σ r).1 = parseCommands (readArr σ r) := by
  unfold parseCommandsRef parseCommands
  refine ⟨?_, rfl⟩
  unfold readArr
  rw [List.getElem?_set_ne (by omega), List.getElem?_append_left h]

/-- Witness for C10 on a one-array heap holding an invalid command
(so the call throws, and the caller's array is still unchanged). -/
theorem c10_parse_commands_frame_witness :
    0 < ([["bogus".toList]] : Store).length ∧
    readArr (parseCommandsRef [["bogus".toList]] 0).2 0 =
      readArr ([["bogus".toList]] : Store) 0 :=
  ⟨by decide, (c10_parse_commands_frame [["bogus".toList]] 0 (by decide)).1⟩

end GuacDotool

